import Mathlib

/-!
Shallow embedding of `parsers/keyval/keyval.go` (honeytail keyval parser).

The per-line pipeline of `Parser.ProcessLines` — regex filter, prefix
stripping, logfmt tokenization with type inference, the ordered rejection
rules, header-field merge and timestamp resolution — is modelled as pure
functions, and the worker pool as a labelled transition system over an
explicit pool state.  External collaborators (the compiled filter regex,
the logfmt splitter, the prefix matcher and `httime.GetTimestamp`) appear
as function parameters, exactly as the Go code consumes them through
interfaces or packages outside this repository.  The `strconv` conversions
used by the tokenizer's type-inference chain (`ParseBool`, `Atoi`,
`ParseFloat`) are modelled concretely from the documented Go stdlib
semantics: exact syntax acceptance, 64-bit signed range for `Atoi`, and
float64 overflow rejection for `ParseFloat` (the float64 value itself is
abstracted: only the success of the conversion matters to the pipeline's
typing decision, so a float-tagged value carries its source text).
-/

namespace Keyval

/-- A typed scalar stored in a parsed map entry (Go `interface{}` holding
`bool`, `int`, `float64` or `string`).  The float64 payload is abstracted
to the text it was parsed from. -/
inductive Value
| bool (b : Bool)
| int (i : Int)
| float (text : String)
| str (s : String)
deriving DecidableEq, Repr

/-- Go `strconv.ParseBool`: accepts exactly the twelve literals of its
switch statement. -/
def parseBool (s : String) : Option Bool :=
  if s = "1" ∨ s = "t" ∨ s = "T" ∨ s = "TRUE" ∨ s = "true" ∨ s = "True" then some true
  else if s = "0" ∨ s = "f" ∨ s = "F" ∨ s = "FALSE" ∨ s = "false" ∨ s = "False" then some false
  else none

/-- ASCII digit test used by the numeric scanners. -/
def isDigitC (c : Char) : Bool := 48 ≤ c.toNat && c.toNat ≤ 57

/-- Go `lower(c) = c | ('x' - 'X')`: ASCII lower-casing by setting bit 5. -/
def lowerC (c : Char) : Char := Char.ofNat (c.toNat % 128 ||| 32)

/-- Value of a decimal digit list, `none` unless it is non-empty and all
digits. -/
def digitsToNat (cs : List Char) : Option Nat :=
  if cs ≠ [] ∧ cs.all isDigitC then
    some (cs.foldl (fun n c => n * 10 + (c.toNat - 48)) 0)
  else none

/-- Go `strconv.Atoi` (= `ParseInt(s, 10, 0)` with 64-bit `int`): optional
sign, one or more decimal digits, result within `[-2^63, 2^63 - 1]`;
anything else (empty string, stray characters, out of range) fails. -/
def atoi (s : String) : Option Int :=
  match s.toList with
  | [] => none
  | c :: rest =>
    let (neg, ds) :=
      if c = '-' then (true, rest)
      else if c = '+' then (false, rest)
      else (false, c :: rest)
    match digitsToNat ds with
    | none => none
    | some n =>
      if neg then
        if n ≤ 2 ^ 63 then some (-(n : Int)) else none
      else
        if n ≤ 2 ^ 63 - 1 then some (n : Int) else none

/-- Hex-letter test (`a`..`f` after lower-casing), as in Go's float
scanner. -/
def isHexLetter (c : Char) : Bool := 97 ≤ (lowerC c).toNat && (lowerC c).toNat ≤ 102

/-- Go `strconv`'s `underscoreOK`: underscores must sit between digits (or
between a base prefix and a digit).  `saw` tracks the class of the previous
character: `^` start, `0` digit, `_` underscore, `!` other. -/
def underscoreLoop (hexm : Bool) (saw : Char) : List Char → Bool
  | [] => saw ≠ '_'
  | c :: rest =>
    if isDigitC c || (hexm && isHexLetter c) then underscoreLoop hexm '0' rest
    else if c = '_' then
      if saw = '0' then underscoreLoop hexm '_' rest else false
    else if saw = '_' then false
    else underscoreLoop hexm '!' rest

/-- Go `strconv`'s `underscoreOK` on a whole string: strip an optional
sign, recognize an optional `0b`/`0o`/`0x` base prefix, then scan. -/
def underscoreOK (s : String) : Bool :=
  let cs :=
    match s.toList with
    | '+' :: r => r
    | '-' :: r => r
    | r => r
  match cs with
  | '0' :: x :: r =>
    if lowerC x = 'b' ∨ lowerC x = 'o' ∨ lowerC x = 'x' then
      underscoreLoop (lowerC x = 'x') '0' r
    else underscoreLoop false '^' cs
  | _ => underscoreLoop false '^' cs

/-- Accumulator of Go `readFloat`'s mantissa loop: mantissa digits as a
number, count of digits after the dot, and the loop flags. -/
structure MantissaAcc where
  D : Nat
  frac : Nat
  sawdot : Bool
  sawdigits : Bool
  und : Bool
deriving Repr

/-- The mantissa loop of Go `readFloat`: consumes digits, underscores and
at most one dot; stops (leaving the rest unconsumed) at anything else,
including a second dot. -/
def mantLoop (hexm : Bool) : List Char → MantissaAcc → MantissaAcc × List Char
  | [], acc => (acc, [])
  | c :: rest, acc =>
    if c = '_' then mantLoop hexm rest { acc with und := true }
    else if c = '.' then
      if acc.sawdot then (acc, c :: rest)
      else mantLoop hexm rest { acc with sawdot := true }
    else if isDigitC c then
      mantLoop hexm rest
        { acc with
          D := acc.D * (if hexm then 16 else 10) + (c.toNat - 48)
          frac := if acc.sawdot then acc.frac + 1 else acc.frac
          sawdigits := true }
    else if hexm && isHexLetter c then
      mantLoop hexm rest
        { acc with
          D := acc.D * 16 + ((lowerC c).toNat - 87)
          frac := if acc.sawdot then acc.frac + 1 else acc.frac
          sawdigits := true }
    else (acc, c :: rest)

/-- The exponent-digit loop of Go `readFloat`: decimal digits and
underscores; returns the exponent value, whether an underscore was seen,
and the unconsumed rest.  (Go caps the accumulated exponent near 10000;
the cap never changes whether the overall conversion succeeds, so the
exact value is kept here.) -/
def expDigits : List Char → Nat → Bool → Nat × Bool × List Char
  | [], e, u => (e, u, [])
  | c :: rest, e, u =>
    if c = '_' then expDigits rest e true
    else if isDigitC c then expDigits rest (e * 10 + (c.toNat - 48)) u
    else (e, u, c :: rest)

/-- Go `readFloat` under `ParseFloat`'s whole-string requirement: `some
(D, E, hexm)` when the string is a syntactically valid (decimal or hex)
floating-point number whose value is `D * 10^E` (decimal) or `D * 2^E`
(hex), `none` otherwise.  Follows the Go scanner: optional sign, optional
`0x` prefix (needing at least one further character), mantissa loop with
at least one digit, mandatory `p` exponent for hex / optional `e` exponent
for decimal with at least one digit after the optional exponent sign, and
the underscore-placement check when an underscore was consumed. -/
def readFloatFull (s : String) : Option (Nat × Int × Bool) :=
  let cs :=
    match s.toList with
    | '+' :: r => r
    | '-' :: r => r
    | r => r
  let hexSplit : Bool × List Char :=
    match cs with
    | '0' :: x :: r => if lowerC x = 'x' ∧ r ≠ [] then (true, r) else (false, cs)
    | _ => (false, cs)
  let hexm := hexSplit.1
  let scanned := mantLoop hexm hexSplit.2 ⟨0, 0, false, false, false⟩
  let acc := scanned.1
  if !acc.sawdigits then none
  else
    match scanned.2 with
    | [] =>
      if hexm then none
      else if acc.und && !underscoreOK s then none
      else some (acc.D, -(acc.frac : Int), false)
    | c :: r =>
      if lowerC c = (if hexm then 'p' else 'e') then
        let signSplit : Int × List Char :=
          match r with
          | '+' :: r1 => (1, r1)
          | '-' :: r1 => (-1, r1)
          | r1 => (1, r1)
        match signSplit.2 with
        | [] => none
        | d :: _ =>
          if isDigitC d then
            match expDigits signSplit.2 0 false with
            | (e, u2, []) =>
              if (acc.und || u2) && !underscoreOK s then none
              else
                some (acc.D,
                  signSplit.1 * (e : Int) -
                    (if hexm then 4 * (acc.frac : Int) else (acc.frac : Int)),
                  hexm)
            | (_, _, _ :: _) => none
          else none
      else none

/-- Go `special` under the whole-string requirement: `±inf`, `±infinity`
and unsigned `nan`, case-insensitively. -/
def parseFloatSpecial (s : String) : Bool :=
  let low := s.toList.map lowerC
  let isInf : List Char → Bool := fun r =>
    r = ['i', 'n', 'f'] || r = ['i', 'n', 'f', 'i', 'n', 'i', 't', 'y']
  match low with
  | '+' :: r => isInf r
  | '-' :: r => isInf r
  | r => isInf r || r = ['n', 'a', 'n']

/-- Whether a syntactically valid float of value `D * base^E` overflows
float64, i.e. rounds to an infinity: its magnitude is at least the
rounding boundary `(2^54 - 1) * 2^970` (halfway between the largest finite
float64 and `2^1024`). -/
def floatOverflows (D : Nat) (E : Int) (hexm : Bool) : Bool :=
  if D = 0 then false
  else
    let B := (2 ^ 54 - 1) * 2 ^ 970
    let base := if hexm then 2 else 10
    if 0 ≤ E then B ≤ D * base ^ E.toNat else B * base ^ (-E).toNat ≤ D

/-- Success of Go `strconv.ParseFloat(s, 64)`: an inf/nan special, or a
syntactically valid number whose value does not overflow float64
(overflow yields a non-nil `ErrRange` error, which the tokenizer treats
as failure; underflow to zero returns no error). -/
def parseFloatOk (s : String) : Bool :=
  if parseFloatSpecial s then true
  else
    match readFloatFull s with
    | none => false
    | some (D, E, hexm) => !floatOverflows D E hexm

/-- The type-inference chain of `KeyValLineParser.ParseLine`'s handler:
try `strconv.ParseBool`, then `strconv.Atoi`, then
`strconv.ParseFloat(…, 64)`, and fall back to the raw string. -/
def inferValue (valStr : String) : Value :=
  match parseBool valStr with
  | some b => Value.bool b
  | none =>
    match atoi valStr with
    | some i => Value.int i
    | none =>
      if parseFloatOk valStr then Value.float valStr else Value.str valStr

/-- The Go map insert `m[k] = v` on an association-list model of
`map[string]interface{}`: overwrite the entry for `k` when present,
otherwise add one. -/
def mapInsert : List (String × Value) → String → Value → List (String × Value)
  | [], k, v => [(k, v)]
  | kv :: rest, k, v =>
    if kv.1 = k then (k, v) :: rest else kv :: mapInsert rest k v

/-- Map lookup `m[k]` on the association-list model. -/
def lookupKV (m : List (String × Value)) (k : String) : Option Value :=
  (m.find? (fun kv => kv.1 = k)).map (fun kv => kv.2)

/-- `KeyValLineParser.ParseLine` after the logfmt split: fold the emitted
key/value byte pairs into the map, each value through the type-inference
chain.  The `logfmt.Unmarshal` splitter itself is an external library and
is passed in as the token list it produces (or its error). -/
def parseLineTokens (tokens : List (String × String)) : List (String × Value) :=
  tokens.foldl (fun m kv => mapInsert m kv.1 (inferValue kv.2)) []

/-- `KeyValLineParser.ParseLine`, parameterized by the external logfmt
splitter: on a split error the partial map is returned alongside a non-nil
error in Go, and the caller discards it, so the error alone is kept. -/
def ParseLine (tokenize : String → Except String (List (String × String)))
    (line : String) : Except String (List (String × Value)) :=
  match tokenize line with
  | Except.error e => Except.error e
  | Except.ok toks => Except.ok (parseLineTokens toks)

/-- `allEmpty` from keyval.go: true when every value in the map is a
string equal to the empty string; any non-string value or non-empty
string returns false. -/
def allEmpty (pl : List (String × Value)) : Bool :=
  pl.all (fun kv =>
    match kv.2 with
    | Value.str s => s = ""
    | _ => false)

/-- The `Options` struct of keyval.go. -/
structure Options where
  TimeFieldName : String
  TimeFieldFormat : String
  FilterRegex : String
  InvertFilter : Bool
  NumParsers : Nat
deriving Repr

/-- The `Parser` struct: its configuration and the compiled filter regex,
abstracted to its `MatchString` predicate (`none` when no filter was
configured). -/
structure Parser where
  conf : Options
  filterRegex : Option (String → Bool)

/-- `Parser.Init`, parameterized by the external `regexp.Compile`: a
non-empty `FilterRegex` that fails to compile makes initialization return
that error; otherwise the parser is built (with no compiled filter when
the pattern is the empty string). -/
def Init (compile : String → Except String (String → Bool))
    (options : Options) : Except String Parser :=
  if options.FilterRegex ≠ "" then
    match compile options.FilterRegex with
    | Except.error e => Except.error e
    | Except.ok m => Except.ok ⟨options, some m⟩
  else Except.ok ⟨options, none⟩

/-- `event.Event`: a resolved timestamp (`time.Time` abstracted to a
number) plus the merged field map. -/
structure Event where
  Timestamp : Nat
  Data : List (String × Value)
deriving DecidableEq, Repr

/-- One call to the reporting collaborator, per rejection branch of the
worker loop. -/
inductive Report
| skipFiltered (line : String) (matched : Bool)
| parseError (line : String) (err : String)
| skipEmpty (line : String)
| skipAllEmpty (line : String)
deriving DecidableEq, Repr

/-- `strings.TrimPrefix(line, pfx)`. -/
def trimPrefixStr (line pfx : String) : String :=
  if pfx.toList.isPrefixOf line.toList then (line.toList.drop pfx.toList.length).asString
  else line

/-- The header-handling step of the worker loop: when a prefix regex is
configured, `FindStringSubmatchMap` yields the matched prefix and the
header fields, and the prefix is trimmed off the line; otherwise the line
is untouched and there are no header fields (ranging over a nil Go map). -/
def afterHeader (prefixRegex : Option (String → String × List (String × String)))
    (line : String) : String × List (String × String) :=
  match prefixRegex with
  | some f => (trimPrefixStr line (f line).1, (f line).2)
  | none => (line, [])

/-- The merge loop `for k, v := range prefixFields { parsedLine[k] = v }`:
header fields (always strings) inserted into the parsed map, overwriting
same-keyed entries. -/
def mergeHeaderFields (pl : List (String × Value))
    (prefixFields : List (String × String)) : List (String × Value) :=
  prefixFields.foldl (fun acc kv => mapInsert acc kv.1 (Value.str kv.2)) pl

/-- The worker-loop body after the filter gate: header handling,
tokenization, the ordered rejection rules, merge, timestamp resolution and
event construction.  Returns the reporting calls made and the event sent,
if any. -/
def processAfterFilter (p : Parser)
    (prefixRegex : Option (String → String × List (String × String)))
    (tokenize : String → Except String (List (String × String)))
    (getTimestamp : List (String × Value) → String → String → Nat)
    (line : String) : List Report × Option Event :=
  let hp := afterHeader prefixRegex line
  let line1 := hp.1
  match ParseLine tokenize line1 with
  | Except.error err => ([Report.parseError line1 err], none)
  | Except.ok parsedLine =>
    if parsedLine.length = 0 then ([Report.skipEmpty line1], none)
    else if allEmpty parsedLine then ([Report.skipAllEmpty line1], none)
    else
      let merged := mergeHeaderFields parsedLine hp.2
      let timestamp := getTimestamp merged p.conf.TimeFieldName p.conf.TimeFieldFormat
      ([], some ⟨timestamp, merged⟩)

/-- One iteration of the worker loop of `Parser.ProcessLines` for one
line: the filter gate, then `processAfterFilter`. -/
def processLine (p : Parser)
    (prefixRegex : Option (String → String × List (String × String)))
    (tokenize : String → Except String (List (String × String)))
    (getTimestamp : List (String × Value) → String → String → Nat)
    (line : String) : List Report × Option Event :=
  match p.filterRegex with
  | some re =>
    let matched := re line
    if matched = p.conf.InvertFilter then
      ([Report.skipFiltered line matched], none)
    else processAfterFilter p prefixRegex tokenize getTimestamp line
  | none => processAfterFilter p prefixRegex tokenize getTimestamp line

/-- Whether the filter gate lets a line through: vacuously with no
configured filter, else exactly when `matched ≠ InvertFilter`. -/
def passesFilter (p : Parser) (line : String) : Bool :=
  match p.filterRegex with
  | some re => re line ≠ p.conf.InvertFilter
  | none => true

/-- The status of one worker goroutine of `ProcessLines`: blocked on the
`lines` channel, processing a received line, or returned from its loop
(after `wg.Done()`). -/
inductive WStatus
| idle
| busy (line : String)
| exited
deriving DecidableEq, Repr

/-- The shared state of one `ProcessLines` run: the unconsumed suffix of
the (closed) `lines` channel, the workers, the events sent on `send` and
the reporting calls made. -/
structure PoolState where
  input : List String
  workers : List WStatus
  output : List Event
  reports : List Report
deriving Repr

/-- The state at the top of `ProcessLines`: the full input, `NumParsers`
workers all about to receive, nothing sent and nothing reported. -/
def initState (numParsers : Nat) (lines : List String) : PoolState :=
  ⟨lines, List.replicate numParsers WStatus.idle, [], []⟩

/-- One interleaved step of the pool, for a per-line processing function
`proc` (instantiated with `processLine`): an idle worker receives the next
line from the channel; a busy worker finishes its line, appending its
reporting calls and (for an accepted line) its event; an idle worker
observes the channel closed and empty, leaves the range loop and exits. -/
inductive Step (proc : String → List Report × Option Event) : PoolState → PoolState → Prop
| take (pre post : List WStatus) (l : String) (rest : List String)
    (out : List Event) (rep : List Report) :
    Step proc ⟨l :: rest, pre ++ WStatus.idle :: post, out, rep⟩
      ⟨rest, pre ++ WStatus.busy l :: post, out, rep⟩
| finish (pre post : List WStatus) (l : String) (input : List String)
    (out : List Event) (rep : List Report) :
    Step proc ⟨input, pre ++ WStatus.busy l :: post, out, rep⟩
      ⟨input, pre ++ WStatus.idle :: post, out ++ (proc l).2.toList, rep ++ (proc l).1⟩
| exit (pre post : List WStatus) (out : List Event) (rep : List Report) :
    Step proc ⟨[], pre ++ WStatus.idle :: post, out, rep⟩
      ⟨[], pre ++ WStatus.exited :: post, out, rep⟩

/-- Any interleaving of pool steps. -/
def Steps (proc : String → List Report × Option Event) : PoolState → PoolState → Prop :=
  Relation.ReflTransGen (Step proc)

/-- `ProcessLines` returns when `wg.Wait()` does: every worker has
exited. -/
def allExited (s : PoolState) : Prop :=
  ∀ w ∈ s.workers, w = WStatus.exited

/-- The lines currently held by busy workers. -/
def busyLines (ws : List WStatus) : List String :=
  ws.filterMap (fun w =>
    match w with
    | WStatus.busy l => some l
    | _ => none)

/-- The multiset of events that processing each of `ls` emits. -/
def emitsOf (proc : String → List Report × Option Event) (ls : List String) : Multiset Event :=
  (ls.filterMap (fun l => (proc l).2) : List Event)

/-! ## Claim theorems: the type-inference chain -/

set_option maxRecDepth 40000 in
set_option exponentiation.threshold 1200 in
/-- C1: the stored value's type is determined by trying, in strict order,
boolean parse, then signed 64-bit base-10 integer parse, then
floating-point parse, and otherwise storing the raw string unchanged; the
string fallback always succeeds (the chain is a total function), and the
first successful parse determines the tag.  The spec's examples, and the
64-bit integer boundary, evaluate accordingly. -/
theorem keyval_type_inference_order :
    (∀ v : String,
      (∀ b, parseBool v = some b → inferValue v = Value.bool b)
      ∧ (parseBool v = none → ∀ i, atoi v = some i → inferValue v = Value.int i)
      ∧ (parseBool v = none → atoi v = none → parseFloatOk v = true →
          inferValue v = Value.float v)
      ∧ (parseBool v = none → atoi v = none → parseFloatOk v = false →
          inferValue v = Value.str v))
    ∧ inferValue "true" = Value.bool true
    ∧ inferValue "42" = Value.int 42
    ∧ inferValue "3.14" = Value.float "3.14"
    ∧ inferValue "42x" = Value.str "42x"
    ∧ inferValue "" = Value.str ""
    ∧ inferValue "9223372036854775807" = Value.int 9223372036854775807
    ∧ inferValue "9223372036854775808" = Value.float "9223372036854775808" := by
  refine ⟨fun v => ⟨?_, ?_, ?_, ?_⟩,
    by decide, by decide, by decide, by decide, by decide, by decide, by decide⟩
  · intro b hb
    simp [inferValue, hb]
  · intro h0 i hi
    simp [inferValue, h0, hi]
  · intro h0 h1 h2
    simp [inferValue, h0, h1, h2]
  · intro h0 h1 h2
    simp [inferValue, h0, h1, h2]

/-- C10: `strconv.ParseBool` accepts exactly the literals 1, t, T, TRUE,
true, True (as true) and 0, f, F, FALSE, false, False (as false), and the
boolean parse is attempted first, so the values 1 and 0 are stored as
booleans even though the integer parse would accept them; the integer
branch is never reached when the boolean parse succeeds. -/
theorem keyval_bool_parsed_before_int :
    (∀ v : String, parseBool v = some true ↔
      (v = "1" ∨ v = "t" ∨ v = "T" ∨ v = "TRUE" ∨ v = "true" ∨ v = "True"))
    ∧ (∀ v : String, parseBool v = some false ↔
      (v = "0" ∨ v = "f" ∨ v = "F" ∨ v = "FALSE" ∨ v = "false" ∨ v = "False"))
    ∧ (∀ v b, parseBool v = some b → inferValue v = Value.bool b)
    ∧ atoi "1" = some 1
    ∧ atoi "0" = some 0
    ∧ inferValue "1" = Value.bool true
    ∧ inferValue "0" = Value.bool false := by
  refine ⟨?_, ?_, ?_, by decide, by decide, by decide, by decide⟩
  · intro v
    constructor
    · intro h
      unfold parseBool at h
      split at h
      · assumption
      · split at h <;> simp_all
    · intro h
      rcases h with rfl | rfl | rfl | rfl | rfl | rfl <;> rfl
  · intro v
    constructor
    · intro h
      unfold parseBool at h
      split at h
      · simp_all
      · split at h
        · assumption
        · simp_all
    · intro h
      rcases h with rfl | rfl | rfl | rfl | rfl | rfl <;> rfl
  · intro v b hb
    simp [inferValue, hb]

/-! ## Claim theorems: allEmpty -/

/-- C6: on a non-empty tokenized mapping, `allEmpty` holds exactly when
every value is the empty string; a mapping containing any non-string
value or any non-empty string value fails the predicate (and so passes
rejection rule 3). -/
theorem keyval_allEmpty_iff (pl : List (String × Value)) (_hne : pl ≠ []) :
    (allEmpty pl = true ↔ ∀ kv ∈ pl, kv.2 = Value.str "")
    ∧ (∀ kv ∈ pl,
        ((∀ s, kv.2 ≠ Value.str s) ∨ (∃ s, kv.2 = Value.str s ∧ s ≠ "")) →
        allEmpty pl = false) := by
  constructor
  · rw [allEmpty, List.all_eq_true]
    refine forall_congr' fun kv => imp_congr_right fun _ => ?_
    cases h : kv.2 <;> simp [h]
  · intro kv hmem hbad
    rw [allEmpty, List.all_eq_false]
    refine ⟨kv, hmem, ?_⟩
    rcases hbad with hns | ⟨s, hs, hsne⟩
    · cases h : kv.2 <;> simp_all
    · simp [hs, hsne]

/-- Witness for C6 at concrete mappings: a single empty-string field
satisfies the predicate; a single integer field does not. -/
theorem keyval_allEmpty_iff_witness :
    allEmpty [("msg", Value.str "")] = true
    ∧ allEmpty [("status", Value.int 200)] = false := by
  constructor
  · exact (keyval_allEmpty_iff [("msg", Value.str "")] (by simp)).1.mpr (by decide)
  · exact (keyval_allEmpty_iff [("status", Value.int 200)] (by simp)).2
      ("status", Value.int 200) (by simp) (Or.inl (by intro s h; cases h))

/-! ## Claim theorems: initialization -/

/-- C7: a non-empty filter pattern that fails to compile makes `Init`
return that error, so no `Parser` value is produced and no worker pool
can start; the malformed pattern is a fatal initialization error, not a
per-line one. -/
theorem keyval_init_invalid_filter (compile : String → Except String (String → Bool))
    (options : Options) (e : String)
    (hne : options.FilterRegex ≠ "")
    (hc : compile options.FilterRegex = Except.error e) :
    Init compile options = Except.error e
    ∧ ∀ p, Init compile options ≠ Except.ok p := by
  have h : Init compile options = Except.error e := by
    simp [Init, hne, hc]
  exact ⟨h, fun p hp => by simp [h] at hp⟩

/-- A compile function that rejects every pattern, standing in for
`regexp.Compile` on a malformed pattern such as an unclosed group. -/
def compileFail : String → Except String (String → Bool) :=
  fun _ => Except.error "error parsing regexp: missing closing )"

/-- Witness for C7: initializing with the malformed pattern `(` fails
with the compile error. -/
theorem keyval_init_invalid_filter_witness :
    Init compileFail ⟨"", "", "(", false, 1⟩
      = Except.error "error parsing regexp: missing closing )" :=
  (keyval_init_invalid_filter compileFail ⟨"", "", "(", false, 1⟩
    "error parsing regexp: missing closing )" (by simp) rfl).1

/-! ## Claim theorems: the filter gate -/

/-- C4: with no configured pattern every line is processed; with a
pattern, a line is processed exactly when the observed match differs from
the invert flag, and a skipped line yields one filter report carrying the
observed match and is dropped before prefix extraction and tokenization
(the skip result does not depend on the prefix regex, the tokenizer or
the timestamp resolver). -/
theorem keyval_filter_gate (p : Parser)
    (prefixRegex : Option (String → String × List (String × String)))
    (tokenize : String → Except String (List (String × String)))
    (getTimestamp : List (String × Value) → String → String → Nat)
    (line : String) :
    (p.filterRegex = none →
      processLine p prefixRegex tokenize getTimestamp line =
        processAfterFilter p prefixRegex tokenize getTimestamp line)
    ∧ (∀ m, p.filterRegex = some m →
        (m line = p.conf.InvertFilter →
          processLine p prefixRegex tokenize getTimestamp line =
            ([Report.skipFiltered line (m line)], none))
        ∧ (m line ≠ p.conf.InvertFilter →
          processLine p prefixRegex tokenize getTimestamp line =
            processAfterFilter p prefixRegex tokenize getTimestamp line))
    ∧ (passesFilter p line = false ↔
        ∃ m, p.filterRegex = some m ∧ m line = p.conf.InvertFilter) := by
  refine ⟨?_, ?_, ?_⟩
  · intro h
    simp [processLine, h]
  · intro m hm
    constructor
    · intro heq
      simp [processLine, hm, heq]
    · intro hne
      simp [processLine, hm, hne]
  · cases hm : p.filterRegex with
    | none => simp [passesFilter, hm]
    | some m =>
      simp only [passesFilter, hm]
      by_cases h : m line = p.conf.InvertFilter <;> simp [h]

/-- Helper: when the filter gate passes, the worker loop body runs. -/
theorem processLine_of_passesFilter (p : Parser)
    (prefixRegex : Option (String → String × List (String × String)))
    (tokenize : String → Except String (List (String × String)))
    (getTimestamp : List (String × Value) → String → String → Nat)
    (line : String) (hf : passesFilter p line = true) :
    processLine p prefixRegex tokenize getTimestamp line =
      processAfterFilter p prefixRegex tokenize getTimestamp line := by
  unfold passesFilter at hf
  cases hm : p.filterRegex with
  | none => simp [processLine, hm]
  | some m =>
    rw [hm] at hf
    simp only [ne_eq, decide_not, Bool.not_eq_true', decide_eq_false_iff_not] at hf
    simp [processLine, hm, hf]

/-! ## Claim theorems: the rejection rules -/

/-- C2: for a line that passes the filter, the rejection rules fire in the
fixed order tokenize-error, then empty-result, then all-values-empty,
each short-circuiting the later ones (an empty mapping is reported as
empty-result even though `allEmpty` would also hold for it); in all three
cases no event is produced and exactly one reporting call is made. -/
theorem keyval_rejection_rules (p : Parser)
    (prefixRegex : Option (String → String × List (String × String)))
    (tokenize : String → Except String (List (String × String)))
    (getTimestamp : List (String × Value) → String → String → Nat)
    (line : String) (hf : passesFilter p line = true) :
    (∀ err, ParseLine tokenize (afterHeader prefixRegex line).1 = Except.error err →
      processLine p prefixRegex tokenize getTimestamp line =
        ([Report.parseError (afterHeader prefixRegex line).1 err], none))
    ∧ (ParseLine tokenize (afterHeader prefixRegex line).1 = Except.ok [] →
      processLine p prefixRegex tokenize getTimestamp line =
        ([Report.skipEmpty (afterHeader prefixRegex line).1], none))
    ∧ (∀ pl, ParseLine tokenize (afterHeader prefixRegex line).1 = Except.ok pl →
        pl ≠ [] → allEmpty pl = true →
      processLine p prefixRegex tokenize getTimestamp line =
        ([Report.skipAllEmpty (afterHeader prefixRegex line).1], none)) := by
  rw [processLine_of_passesFilter p prefixRegex tokenize getTimestamp line hf]
  refine ⟨?_, ?_, ?_⟩
  · intro err herr
    simp [processAfterFilter, herr]
  · intro hok
    simp [processAfterFilter, hok, allEmpty]
  · intro pl hok hne hall
    have hlen : pl.length ≠ 0 := by
      simpa [List.length_eq_zero] using hne
    simp [processAfterFilter, hok, hlen, hall]

/-- A parser with no filter pattern configured and one worker. -/
def parserNoFilter : Parser := ⟨⟨"", "", "", false, 1⟩, none⟩

/-- A logfmt splitter that emits one `msg` token with an empty value,
whatever the line (standing in for the split of `msg=""`). -/
def tokenizeMsgEmpty : String → Except String (List (String × String)) :=
  fun _ => Except.ok [("msg", "")]

/-- A timestamp resolver that always answers 0. -/
def resolveZero : List (String × Value) → String → String → Nat :=
  fun _ _ _ => 0

/-- Witness for C2 at a concrete line: tokenizing `msg=""` yields only an
empty-string value, so the line is rejected as all-values-empty with one
report and no event. -/
theorem keyval_rejection_rules_witness :
    processLine parserNoFilter none tokenizeMsgEmpty resolveZero "msg=\"\"" =
      ([Report.skipAllEmpty "msg=\"\""], none) :=
  (keyval_rejection_rules parserNoFilter none tokenizeMsgEmpty resolveZero
    "msg=\"\"" rfl).2.2 [("msg", Value.str "")] rfl (by simp) rfl

/-- C3: the all-values-empty rule is evaluated on the tokenized mapping
before the header fields are merged in, so a non-empty all-empty-string
mapping is rejected even when the prefix extractor returned non-empty
header fields for the line. -/
theorem keyval_allEmpty_before_merge (p : Parser)
    (prefixRegex : Option (String → String × List (String × String)))
    (tokenize : String → Except String (List (String × String)))
    (getTimestamp : List (String × Value) → String → String → Nat)
    (line : String) (hf : passesFilter p line = true)
    (pl : List (String × Value))
    (hok : ParseLine tokenize (afterHeader prefixRegex line).1 = Except.ok pl)
    (hne : pl ≠ []) (hall : allEmpty pl = true)
    (_hhdr : (afterHeader prefixRegex line).2 ≠ []) :
    processLine p prefixRegex tokenize getTimestamp line =
      ([Report.skipAllEmpty (afterHeader prefixRegex line).1], none) := by
  rw [processLine_of_passesFilter p prefixRegex tokenize getTimestamp line hf]
  have hlen : pl.length ≠ 0 := by
    simpa [List.length_eq_zero] using hne
  simp [processAfterFilter, hok, hlen, hall]

/-- A prefix matcher that strips the header `hdr ` and yields one header
field `host`. -/
def matchHdrHost : String → String × List (String × String) :=
  fun _ => ("hdr ", [("host", "h1")])

/-- Witness for C3: a line whose tokens are all empty strings is rejected
as all-values-empty although the prefix extractor returned the non-empty
header field list. -/
theorem keyval_allEmpty_before_merge_witness :
    processLine parserNoFilter (some matchHdrHost) tokenizeMsgEmpty resolveZero
      "hdr msg=\"\"" = ([Report.skipAllEmpty "msg=\"\""], none) :=
  keyval_allEmpty_before_merge parserNoFilter (some matchHdrHost) tokenizeMsgEmpty
    resolveZero "hdr msg=\"\"" rfl [("msg", Value.str "")] rfl (by simp) rfl (by simp [afterHeader, matchHdrHost])

/-! ## Claim theorems: the header-field merge -/

/-- Lookup after a map insert: the inserted key now maps to the inserted
value and every other key is untouched. -/
theorem lookupKV_mapInsert (m : List (String × Value)) (k : String) (v : Value)
    (k1 : String) :
    lookupKV (mapInsert m k v) k1 = if k1 = k then some v else lookupKV m k1 := by
  induction m with
  | nil =>
    by_cases h : k1 = k
    · subst h
      simp [mapInsert, lookupKV]
    · have h2 : ¬(k = k1) := fun hh => h hh.symm
      simp [mapInsert, lookupKV, h, h2, List.find?]
  | cons hd tl ih =>
    by_cases h1 : hd.1 = k
    · by_cases hk : k1 = k
      · subst hk
        simp [mapInsert, lookupKV, h1, List.find?]
      · have h2 : ¬(k = k1) := fun hh => hk hh.symm
        have h3 : ¬(hd.1 = k1) := fun hh => hk (hh.symm.trans h1)
        simp [mapInsert, lookupKV, h1, hk, h2, h3, List.find?]
    · by_cases hhd : hd.1 = k1
      · have hk : ¬(k1 = k) := fun hh => h1 (hhd.trans hh)
        simp [mapInsert, lookupKV, h1, hhd, hk, List.find?]
      · simp only [mapInsert, if_neg h1]
        have hd1 : decide (hd.1 = k1) = false := decide_eq_false hhd
        simp only [lookupKV, List.find?, hd1]
        simpa [lookupKV] using ih

/-- Merging header fields none of which carry a given key leaves that
key's lookup unchanged. -/
theorem lookupKV_mergeHeaderFields_not_mem (pf : List (String × String))
    (pl : List (String × Value)) (k : String)
    (h : ∀ kv ∈ pf, kv.1 ≠ k) :
    lookupKV (mergeHeaderFields pl pf) k = lookupKV pl k := by
  induction pf generalizing pl with
  | nil => rfl
  | cons hd tl ih =>
    have hstep : mergeHeaderFields pl (hd :: tl) =
        mergeHeaderFields (mapInsert pl hd.1 (Value.str hd.2)) tl := by
      simp [mergeHeaderFields]
    rw [hstep, ih _ fun kv hkv => h kv (List.mem_cons_of_mem hd hkv),
      lookupKV_mapInsert]
    rw [if_neg fun hh => h hd (List.mem_cons_self hd tl) hh.symm]

/-- Merging header fields with pairwise distinct keys makes each merged
key map to its header value (as a string). -/
theorem lookupKV_mergeHeaderFields_mem (pf : List (String × String))
    (pl : List (String × Value)) (k v : String)
    (hmem : (k, v) ∈ pf) (hnd : (pf.map Prod.fst).Nodup) :
    lookupKV (mergeHeaderFields pl pf) k = some (Value.str v) := by
  induction pf generalizing pl with
  | nil => cases hmem
  | cons hd tl ih =>
    have hstep : mergeHeaderFields pl (hd :: tl) =
        mergeHeaderFields (mapInsert pl hd.1 (Value.str hd.2)) tl := by
      simp [mergeHeaderFields]
    rw [hstep]
    rw [List.map_cons, List.nodup_cons] at hnd
    rcases List.mem_cons.mp hmem with heq | hmem2
    · have hk : hd.1 = k := by rw [← heq]
      have hv : hd.2 = v := by rw [← heq]
      have hnot : ∀ kv ∈ tl, kv.1 ≠ k := by
        intro kv hkv hk1
        apply hnd.1
        rw [hk, ← hk1]
        exact List.mem_map_of_mem Prod.fst hkv
      rw [lookupKV_mergeHeaderFields_not_mem tl _ k hnot, hk, hv,
        lookupKV_mapInsert, if_pos rfl]
    · exact ih _ hmem2 hnd.2

/-- C5: for a line that passes the filter and the rejection rules, the
header fields are merged into the tokenized mapping after tokenization,
and for every key present in both the final merged mapping holds the
header field's string value, overwriting the tokenized one. -/
theorem keyval_header_precedence (p : Parser)
    (prefixRegex : Option (String → String × List (String × String)))
    (tokenize : String → Except String (List (String × String)))
    (getTimestamp : List (String × Value) → String → String → Nat)
    (line : String) (hf : passesFilter p line = true)
    (pl : List (String × Value))
    (hok : ParseLine tokenize (afterHeader prefixRegex line).1 = Except.ok pl)
    (hne : pl ≠ []) (hnall : allEmpty pl = false) :
    ∃ ev, processLine p prefixRegex tokenize getTimestamp line = ([], some ev)
      ∧ ev.Data = mergeHeaderFields pl (afterHeader prefixRegex line).2
      ∧ (∀ k v, (k, v) ∈ (afterHeader prefixRegex line).2 →
          ((afterHeader prefixRegex line).2.map Prod.fst).Nodup →
          lookupKV ev.Data k = some (Value.str v)) := by
  rw [processLine_of_passesFilter p prefixRegex tokenize getTimestamp line hf]
  have hlen : pl.length ≠ 0 := by
    simpa [List.length_eq_zero] using hne
  refine ⟨⟨getTimestamp (mergeHeaderFields pl (afterHeader prefixRegex line).2)
      p.conf.TimeFieldName p.conf.TimeFieldFormat,
    mergeHeaderFields pl (afterHeader prefixRegex line).2⟩, ?_, rfl, ?_⟩
  · simp [processAfterFilter, hok, hlen, hnall]
  · intro k v hmem hnd
    exact lookupKV_mergeHeaderFields_mem _ pl k v hmem hnd

/-- A logfmt splitter that emits one `k` token with value `v1`. -/
def tokenizeKV1 : String → Except String (List (String × String)) :=
  fun _ => Except.ok [("k", "v1")]

/-- A prefix matcher that matches an empty prefix and yields a colliding
header field `k`. -/
def matchHeaderK : String → String × List (String × String) :=
  fun _ => ("", [("k", "h")])

/-- Witness for C5: the tokenized value of `k` is overwritten by the
header field's value `h` in the emitted event's data. -/
theorem keyval_header_precedence_witness :
    ∃ ev, processLine parserNoFilter (some matchHeaderK) tokenizeKV1 resolveZero
      "k=v1" = ([], some ev)
      ∧ ev.Data = mergeHeaderFields [("k", Value.str "v1")]
          (afterHeader (some matchHeaderK) "k=v1").2
      ∧ (∀ k v, (k, v) ∈ (afterHeader (some matchHeaderK) "k=v1").2 →
          ((afterHeader (some matchHeaderK) "k=v1").2.map Prod.fst).Nodup →
          lookupKV ev.Data k = some (Value.str v)) :=
  keyval_header_precedence parserNoFilter (some matchHeaderK) tokenizeKV1 resolveZero
    "k=v1" rfl [("k", Value.str "v1")] rfl (by simp) rfl

/-! ## Claim theorems: the worker pool -/

theorem busyLines_append (a b : List WStatus) :
    busyLines (a ++ b) = busyLines a ++ busyLines b := by
  simp [busyLines, List.filterMap_append]

theorem emitsOf_append (proc : String → List Report × Option Event) (a b : List String) :
    emitsOf proc (a ++ b) = emitsOf proc a + emitsOf proc b := by
  simp [emitsOf, List.filterMap_append, Multiset.coe_add]

theorem emitsOf_cons (proc : String → List Report × Option Event) (l : String)
    (ls : List String) :
    emitsOf proc (l :: ls) = ((proc l).2.toList : Multiset Event) + emitsOf proc ls := by
  simp only [emitsOf, List.filterMap_cons]
  cases h : (proc l).2 with
  | none => simp
  | some e => simp [← Multiset.cons_coe, Multiset.singleton_add]

theorem busyLines_cons_idle (ws : List WStatus) :
    busyLines (WStatus.idle :: ws) = busyLines ws := by
  simp [busyLines, List.filterMap_cons]

theorem busyLines_cons_exited (ws : List WStatus) :
    busyLines (WStatus.exited :: ws) = busyLines ws := by
  simp [busyLines, List.filterMap_cons]

theorem busyLines_cons_busy (l : String) (ws : List WStatus) :
    busyLines (WStatus.busy l :: ws) = l :: busyLines ws := by
  simp [busyLines, List.filterMap_cons]

/-- The events already sent plus the events the unconsumed and in-flight
lines will produce: the conserved quantity of the pool. -/
def poolMeasure (proc : String → List Report × Option Event) (s : PoolState) : Multiset Event :=
  (s.output : Multiset Event) + emitsOf proc s.input + emitsOf proc (busyLines s.workers)

/-- Whether some worker has already exited its loop. -/
def hasExited (s : PoolState) : Prop :=
  ∃ w ∈ s.workers, w = WStatus.exited

theorem mem_mid {α : Type} {w x y : α} {pre post : List α}
    (hw : w ∈ pre ++ x :: post) (hne : w ≠ x) : w ∈ pre ++ y :: post := by
  rcases List.mem_append.mp hw with h | h
  · exact List.mem_append.mpr (Or.inl h)
  · rcases List.mem_cons.mp h with h2 | h2
    · exact absurd h2 hne
    · exact List.mem_append.mpr (Or.inr (List.mem_cons_of_mem y h2))

theorem step_poolMeasure (proc : String → List Report × Option Event)
    {s1 s2 : PoolState} (h : Step proc s1 s2) :
    poolMeasure proc s2 = poolMeasure proc s1 := by
  cases h with
  | take pre post l rest out rep =>
    simp only [poolMeasure, busyLines_append, busyLines_cons_busy, busyLines_cons_idle,
      emitsOf_append, emitsOf_cons]
    abel
  | finish pre post l input out rep =>
    simp only [poolMeasure, busyLines_append, busyLines_cons_busy, busyLines_cons_idle,
      emitsOf_append, emitsOf_cons, ← Multiset.coe_add]
    abel
  | exit pre post out rep =>
    simp only [poolMeasure, busyLines_append, busyLines_cons_idle, busyLines_cons_exited]

theorem step_drained (proc : String → List Report × Option Event)
    {s1 s2 : PoolState} (h : Step proc s1 s2)
    (h1 : hasExited s1 → s1.input = []) : hasExited s2 → s2.input = [] := by
  cases h with
  | take pre post l rest out rep =>
    rintro ⟨w, hw, rfl⟩
    exfalso
    have hmem : WStatus.exited ∈ pre ++ WStatus.idle :: post :=
      mem_mid hw (fun hh => WStatus.noConfusion hh)
    exact List.cons_ne_nil l rest (h1 ⟨WStatus.exited, hmem, rfl⟩)
  | finish pre post l input out rep =>
    rintro ⟨w, hw, rfl⟩
    have hmem : WStatus.exited ∈ pre ++ WStatus.busy l :: post :=
      mem_mid hw (fun hh => WStatus.noConfusion hh)
    exact h1 ⟨WStatus.exited, hmem, rfl⟩
  | exit pre post out rep =>
    intro _
    rfl

theorem step_workers_length (proc : String → List Report × Option Event)
    {s1 s2 : PoolState} (h : Step proc s1 s2) :
    s2.workers.length = s1.workers.length := by
  cases h <;> simp

/-- The pool invariant carried over any interleaving: the measure is
conserved, a worker exit certifies a drained input, and the worker count
never changes. -/
theorem steps_inv (proc : String → List Report × Option Event)
    {s1 s2 : PoolState} (h : Steps proc s1 s2) :
    poolMeasure proc s2 = poolMeasure proc s1
    ∧ ((hasExited s1 → s1.input = []) → hasExited s2 → s2.input = [])
    ∧ s2.workers.length = s1.workers.length := by
  induction h with
  | refl => exact ⟨rfl, fun hh => hh, rfl⟩
  | tail _ hstep ih =>
    exact ⟨(step_poolMeasure proc hstep).trans ih.1,
      fun hh => step_drained proc hstep (ih.2.1 hh),
      (step_workers_length proc hstep).trans ih.2.2⟩

theorem filterMap_length_all_some {α β : Type} (f : α → Option β) (ls : List α)
    (h : ∀ a ∈ ls, ∃ b, f a = some b) : (ls.filterMap f).length = ls.length := by
  induction ls with
  | nil => rfl
  | cons a t ih =>
    obtain ⟨b, hb⟩ := h a (List.mem_cons_self a t)
    simp only [List.filterMap_cons, hb, List.length_cons]
    rw [ih fun x hx => h x (List.mem_cons_of_mem a hx)]

/-- C8: with any number of workers, any complete run of the pool (all
workers exited) over lines that are neither filtered nor rejected sends
exactly one event per input line — as a multiset the output equals the
per-line events, so no line is lost and none is duplicated — and in
particular the output length is the input length.  (The order of the
output list is schedule-dependent; only its multiset is fixed.) -/
theorem keyval_pool_emits_every_line (p : Parser)
    (prefixRegex : Option (String → String × List (String × String)))
    (tokenize : String → Except String (List (String × String)))
    (getTimestamp : List (String × Value) → String → String → Nat)
    (lines : List String) (n : Nat) (s : PoolState)
    (hn : 1 < n) (_hm : n < lines.length)
    (hvalid : ∀ l ∈ lines, ∃ ev,
      processLine p prefixRegex tokenize getTimestamp l = ([], some ev))
    (hsteps : Steps (processLine p prefixRegex tokenize getTimestamp)
      (initState n lines) s)
    (hdone : allExited s) :
    (s.output : Multiset Event)
      = emitsOf (processLine p prefixRegex tokenize getTimestamp) lines
    ∧ s.output.length = lines.length := by
  obtain ⟨hmeas, hdr, hlen⟩ := steps_inv _ hsteps
  have hinit_busy : busyLines (List.replicate n WStatus.idle) = [] :=
    List.filterMap_eq_nil_iff.mpr fun w hw => by
      rw [List.eq_of_mem_replicate hw]
  have hmeas0 : poolMeasure (processLine p prefixRegex tokenize getTimestamp)
      (initState n lines)
      = emitsOf (processLine p prefixRegex tokenize getTimestamp) lines := by
    simp [poolMeasure, initState, hinit_busy, emitsOf]
  have hne : s.workers ≠ [] := by
    intro hnil
    rw [hnil] at hlen
    simp [initState] at hlen
    omega
  obtain ⟨w0, hw0⟩ := List.exists_mem_of_ne_nil s.workers hne
  have hnoexit0 : hasExited (initState n lines) → (initState n lines).input = [] := by
    rintro ⟨w, hw, rfl⟩
    exact absurd (List.eq_of_mem_replicate hw) (fun hh => WStatus.noConfusion hh)
  have hdrained : s.input = [] := hdr hnoexit0 ⟨w0, hw0, hdone w0 hw0⟩
  have hbusy : busyLines s.workers = [] :=
    List.filterMap_eq_nil_iff.mpr fun w hw => by rw [hdone w hw]
  have hout : (s.output : Multiset Event)
      = emitsOf (processLine p prefixRegex tokenize getTimestamp) lines := by
    have h2 := hmeas.trans hmeas0
    simpa [poolMeasure, hdrained, hbusy, emitsOf] using h2
  refine ⟨hout, ?_⟩
  have hcard := congrArg Multiset.card hout
  rw [Multiset.coe_card] at hcard
  rw [hcard]
  show Multiset.card (emitsOf _ lines) = lines.length
  rw [emitsOf, Multiset.coe_card]
  exact filterMap_length_all_some _ lines fun l hl => by
    obtain ⟨ev, hev⟩ := hvalid l hl
    exact ⟨ev, by rw [hev]⟩

/-- C9: with `NumParsers = 0` the pool has no workers: the start state
already counts as all-exited, no step at all is possible, every reachable
state is the start state, and in particular no line is consumed and no
event or report is produced — all input is silently dropped. -/
theorem keyval_pool_zero_workers (p : Parser)
    (prefixRegex : Option (String → String × List (String × String)))
    (tokenize : String → Except String (List (String × String)))
    (getTimestamp : List (String × Value) → String → String → Nat)
    (lines : List String) :
    allExited (initState 0 lines)
    ∧ (∀ s, ¬ Step (processLine p prefixRegex tokenize getTimestamp)
        (initState 0 lines) s)
    ∧ (∀ s, Steps (processLine p prefixRegex tokenize getTimestamp)
        (initState 0 lines) s → s = initState 0 lines)
    ∧ (initState 0 lines).input = lines
    ∧ (initState 0 lines).output = []
    ∧ (initState 0 lines).reports = [] := by
  have hwne : ∀ s1 s2 : PoolState,
      Step (processLine p prefixRegex tokenize getTimestamp) s1 s2 →
      s1.workers ≠ [] := by
    intro s1 s2 hstep
    cases hstep <;>
      exact List.append_ne_nil_of_right_ne_nil _ (List.cons_ne_nil _ _)
  have hnostep : ∀ s, ¬ Step (processLine p prefixRegex tokenize getTimestamp)
      (initState 0 lines) s := by
    intro s hstep
    exact hwne _ s hstep rfl
  refine ⟨?_, hnostep, ?_, rfl, rfl, rfl⟩
  · rintro w hw
    simp [initState] at hw
  · intro s hs
    rcases Relation.ReflTransGen.cases_head hs with heq | ⟨c, hc, _⟩
    · exact heq.symm
    · exact absurd hc (hnostep c)

/-- A two-worker parser configuration with no filter, for the pool run
below. -/
def parserPoolW : Parser := ⟨⟨"", "", "", false, 2⟩, none⟩

/-- A splitter that emits the whole line as the single `line` token. -/
def tokenizeWhole : String → Except String (List (String × String)) :=
  fun l => Except.ok [("line", l)]

/-- The per-line processing function of the concrete pool run. -/
def procW : String → List Report × Option Event :=
  processLine parserPoolW none tokenizeWhole resolveZero

/-- The event the concrete pool run emits for a line. -/
def evW (l : String) : Event := ⟨0, [("line", Value.str l)]⟩

/-- The final state of the concrete pool run: input drained, both workers
exited, three events sent, nothing reported. -/
def poolFinalW : PoolState :=
  ⟨[], [WStatus.exited, WStatus.exited], [evW "a", evW "b", evW "c"], []⟩

/-- A complete schedule of the two-worker pool over three lines: worker 0
takes and finishes each line in turn, then both workers observe the
closed empty channel and exit. -/
theorem poolStepsW : Steps procW (initState 2 ["a", "b", "c"]) poolFinalW :=
  Relation.ReflTransGen.head
    (show Step procW (initState 2 ["a", "b", "c"])
        ⟨["b", "c"], [WStatus.busy "a", WStatus.idle], [], []⟩ from
      Step.take [] [WStatus.idle] "a" ["b", "c"] [] [])
    (Relation.ReflTransGen.head
      (show Step procW ⟨["b", "c"], [WStatus.busy "a", WStatus.idle], [], []⟩
          ⟨["b", "c"], [WStatus.idle, WStatus.idle], [evW "a"], []⟩ from
        Step.finish [] [WStatus.idle] "a" ["b", "c"] [] [])
      (Relation.ReflTransGen.head
        (show Step procW ⟨["b", "c"], [WStatus.idle, WStatus.idle], [evW "a"], []⟩
            ⟨["c"], [WStatus.busy "b", WStatus.idle], [evW "a"], []⟩ from
          Step.take [] [WStatus.idle] "b" ["c"] [evW "a"] [])
        (Relation.ReflTransGen.head
          (show Step procW ⟨["c"], [WStatus.busy "b", WStatus.idle], [evW "a"], []⟩
              ⟨["c"], [WStatus.idle, WStatus.idle], [evW "a", evW "b"], []⟩ from
            Step.finish [] [WStatus.idle] "b" ["c"] [evW "a"] [])
          (Relation.ReflTransGen.head
            (show Step procW ⟨["c"], [WStatus.idle, WStatus.idle], [evW "a", evW "b"], []⟩
                ⟨[], [WStatus.busy "c", WStatus.idle], [evW "a", evW "b"], []⟩ from
              Step.take [] [WStatus.idle] "c" [] [evW "a", evW "b"] [])
            (Relation.ReflTransGen.head
              (show Step procW
                  ⟨[], [WStatus.busy "c", WStatus.idle], [evW "a", evW "b"], []⟩
                  ⟨[], [WStatus.idle, WStatus.idle], [evW "a", evW "b", evW "c"], []⟩ from
                Step.finish [] [WStatus.idle] "c" [] [evW "a", evW "b"] [])
              (Relation.ReflTransGen.head
                (show Step procW
                    ⟨[], [WStatus.idle, WStatus.idle], [evW "a", evW "b", evW "c"], []⟩
                    ⟨[], [WStatus.exited, WStatus.idle], [evW "a", evW "b", evW "c"], []⟩ from
                  Step.exit [] [WStatus.idle] [evW "a", evW "b", evW "c"] [])
                (Relation.ReflTransGen.head
                  (show Step procW
                      ⟨[], [WStatus.exited, WStatus.idle], [evW "a", evW "b", evW "c"], []⟩
                      poolFinalW from
                    Step.exit [WStatus.exited] [] [evW "a", evW "b", evW "c"] [])
                  Relation.ReflTransGen.refl)))))))

/-- Witness for C8: the concrete two-worker run over the three lines a, b,
c ends with exactly those three events sent, one per line. -/
theorem keyval_pool_emits_every_line_witness :
    (poolFinalW.output : Multiset Event)
      = emitsOf (processLine parserPoolW none tokenizeWhole resolveZero) ["a", "b", "c"]
    ∧ poolFinalW.output.length = (["a", "b", "c"] : List String).length :=
  keyval_pool_emits_every_line parserPoolW none tokenizeWhole resolveZero
    ["a", "b", "c"] 2 poolFinalW (by decide) (by decide)
    (by
      intro l hl
      simp only [List.mem_cons, List.not_mem_nil, or_false] at hl
      rcases hl with rfl | rfl | rfl
      · exact ⟨evW "a", rfl⟩
      · exact ⟨evW "b", rfl⟩
      · exact ⟨evW "c", rfl⟩)
    poolStepsW
    (by
      intro w hw
      simp only [poolFinalW, List.mem_cons, List.not_mem_nil, or_false] at hw
      rcases hw with rfl | rfl <;> rfl)

end Keyval
